import Mathlib

/-!
Verification of the address-book core: validated fields (Name, Phone,
Birthday), the contact Record, the AddressBook collection, and the
upcoming-birthdays date algorithm.  Every definition below is a shallow
embedding of the corresponding Python source in
`src/address_book/models/` and `src/address_book/exceptions/`.
-/

namespace AB

/-- A Python value as seen by the field setters: either a string, or any
non-string value (all non-strings take the same `isinstance` failure branch). -/
inductive PyVal where
  | str (s : String) : PyVal
  | other : PyVal
deriving DecidableEq

/-- The exception taxonomy of `exceptions/exceptions.py`, plus the built-in
Python errors (`ValueError` from `date.replace`, `OverflowError` from date
addition past year 9999) that the source can raise. -/
inductive PyErr where
  | invalidName
  | emptyName
  | invalidPhone
  | duplicatePhone
  | phoneNotFound
  | invalidBirthday
  | duplicateBirthday
  | duplicateRecord
  | recordNotFound
  | valueError
  | overflowError
deriving DecidableEq

/-- A calendar date, mirroring `datetime.date` fields. -/
structure Date where
  y : Nat
  m : Nat
  d : Nat
deriving DecidableEq

/-- Gregorian leap-year rule, as used by `datetime`. -/
def isLeap (y : Nat) : Bool :=
  y % 4 == 0 && (y % 100 != 0 || y % 400 == 0)

/-- Number of days in a month of a given year, as used by `datetime`. -/
def daysInMonth (y m : Nat) : Nat :=
  if m = 2 then (if isLeap y then 29 else 28)
  else if m = 4 ∨ m = 6 ∨ m = 9 ∨ m = 11 then 30
  else 31

/-- Days in the months strictly before month `m` of a common year. -/
def cumDays (m : Nat) : Nat :=
  match m with
  | 1 => 0 | 2 => 31 | 3 => 59 | 4 => 90 | 5 => 120 | 6 => 151
  | 7 => 181 | 8 => 212 | 9 => 243 | 10 => 273 | 11 => 304 | 12 => 334
  | _ => 0

/-- Days in the months of year `y` strictly before month `m`. -/
def daysBeforeMonth (y m : Nat) : Nat :=
  cumDays m + (if 2 < m ∧ isLeap y then 1 else 0)

/-- Proleptic Gregorian ordinal of a date, as `datetime.date.toordinal`:
day 1 is 0001-01-01. -/
def toOrdinal (dt : Date) : Nat :=
  365 * (dt.y - 1) + (dt.y - 1) / 4 + (dt.y - 1) / 400 - (dt.y - 1) / 100
    + daysBeforeMonth dt.y dt.m + dt.d

/-- `datetime.date.weekday`: 0 = Monday .. 6 = Sunday. -/
def weekday (dt : Date) : Nat :=
  (toOrdinal dt + 6) % 7

/-- Python date comparison (lexicographic on year, month, day). -/
def dateLt (a b : Date) : Bool :=
  decide (a.y < b.y) ||
    (a.y == b.y && (decide (a.m < b.m) || (a.m == b.m && decide (a.d < b.d))))

/-- The field bounds `datetime.date` enforces on construction and on
`date.replace` (a violation raises `ValueError`). -/
def validDate (dt : Date) : Prop :=
  1 ≤ dt.y ∧ dt.y ≤ 9999 ∧ 1 ≤ dt.m ∧ dt.m ≤ 12 ∧ 1 ≤ dt.d ∧
    dt.d ≤ daysInMonth dt.y dt.m

instance (dt : Date) : Decidable (validDate dt) := by
  unfold validDate; infer_instance

/-- Fallible date construction: `datetime.date(y, m, d)` and
`date.replace`, which raise `ValueError` on an invalid combination. -/
def mkDate (y m d : Nat) : Option Date :=
  if validDate ⟨y, m, d⟩ then some ⟨y, m, d⟩ else none

/-- Inverse of `toOrdinal` (standard civil-from-days computation),
used to model adding a `timedelta` to a date. -/
def fromOrdinal (n : Nat) : Date :=
  let g := n + 305
  let era := g / 146097
  let doe := g % 146097
  let yoe := (doe - doe / 1460 + doe / 36524 - doe / 146096) / 365
  let y := yoe + era * 400
  let doy := doe - (365 * yoe + yoe / 4 - yoe / 100)
  let mp := (5 * doy + 2) / 153
  let d := doy - (153 * mp + 2) / 5 + 1
  let m := if mp < 10 then mp + 3 else mp - 9
  if m ≤ 2 then ⟨y + 1, m, d⟩ else ⟨y, m, d⟩

/-- Ordinal of 9999-12-31, the largest date `datetime` supports. -/
def maxOrdinal : Nat := toOrdinal ⟨9999, 12, 31⟩

/-- `date + timedelta(days = k)`: raises `OverflowError` (modelled as
`none`) past `datetime.date.max`. -/
def dateAdd (dt : Date) (k : Nat) : Option Date :=
  if toOrdinal dt + k ≤ maxOrdinal then some (fromOrdinal (toOrdinal dt + k))
  else none

/-- The day after a given date (for stating the future-date boundary). -/
def succDate (dt : Date) : Date :=
  if dt.d < daysInMonth dt.y dt.m then ⟨dt.y, dt.m, dt.d + 1⟩
  else if dt.m < 12 then ⟨dt.y, dt.m + 1, 1⟩
  else ⟨dt.y + 1, 1, 1⟩

/-- The whitespace characters removed by Python `str.strip()`
(restricted to the ASCII ones). -/
def isWS (c : Char) : Bool :=
  c == ' ' || c == '\t' || c == '\n' || c == '\r' || c == '\x0b' || c == '\x0c'

/-- Python `str.strip()`: drop whitespace from both ends. -/
def trimChars (l : List Char) : List Char :=
  ((l.dropWhile isWS).reverse.dropWhile isWS).reverse

/-- Python `str.strip()` on a `String`. -/
def pyStrip (s : String) : String := ⟨trimChars s.toList⟩

/-- Decimal value of a digit-character list (most significant first). -/
def natOfDigits (l : List Char) : Nat :=
  l.foldl (fun a c => a * 10 + (c.toNat - 48)) 0

/-- Two-digit zero-padded rendering, as `strftime` `%d` and `%m`. -/
def formatNat2 (n : Nat) : List Char :=
  [Nat.digitChar (n / 10 % 10), Nat.digitChar (n % 10)]

/-- Four-digit zero-padded rendering, as `strftime` `%Y`. -/
def formatNat4 (n : Nat) : List Char :=
  [Nat.digitChar (n / 1000 % 10), Nat.digitChar (n / 100 % 10),
   Nat.digitChar (n / 10 % 10), Nat.digitChar (n % 10)]

/-- `date.strftime("%d.%m.%Y")`, used for birthday rendering and the
congratulation date. -/
def strftimeDMY (dt : Date) : String :=
  ⟨formatNat2 dt.d ++ ('.' :: (formatNat2 dt.m ++ ('.' :: formatNat4 dt.y)))⟩

/-- Split a character list on the dot character. -/
def splitDots : List Char → List (List Char)
  | [] => [[]]
  | c :: cs =>
    if c = '.' then [] :: splitDots cs
    else
      match splitDots cs with
      | h :: t => (c :: h) :: t
      | [] => [[c]]

/-- The day component of CPython `strptime` `%d`: one or two digits whose
value lies in 1..31 (the alternation `3[01]|[12]\d|0[1-9]|[1-9]`). -/
def parseDay (l : List Char) : Option Nat :=
  if l.all Char.isDigit && (l.length == 1 || l.length == 2) then
    let v := natOfDigits l
    if 1 ≤ v && v ≤ 31 then some v else none
  else none

/-- The month component of CPython `strptime` `%m`: one or two digits whose
value lies in 1..12 (the alternation `1[0-2]|0[1-9]|[1-9]`). -/
def parseMonth (l : List Char) : Option Nat :=
  if l.all Char.isDigit && (l.length == 1 || l.length == 2) then
    let v := natOfDigits l
    if 1 ≤ v && v ≤ 12 then some v else none
  else none

/-- The year component of CPython `strptime` `%Y`: exactly four digits. -/
def parseYear (l : List Char) : Option Nat :=
  if l.all Char.isDigit && l.length == 4 then some (natOfDigits l) else none

/-- `datetime.strptime(s, "%d.%m.%Y")` up to the numeral extraction: the
string must be day, dot, month, dot, year with nothing left over. -/
def dmyParse (l : List Char) : Option (Nat × Nat × Nat) :=
  match splitDots l with
  | [a, b, c] =>
    match parseDay a, parseMonth b, parseYear c with
    | some dd, some mm, some yy => some (dd, mm, yy)
    | _, _, _ => none
  | _ => none

/-- Full birthday parse of `Birthday.value`: strip the input, run
`strptime("%d.%m.%Y")`, and build the calendar date (an impossible
combination raises `ValueError` inside `strptime`, modelled as `none`). -/
def birthdayParse (s : String) : Option Date :=
  match dmyParse (trimChars s.toList) with
  | some (dd, mm, yy) => mkDate yy mm dd
  | none => none

/-- ASCII letter, the regex class `[a-zA-Z]`. -/
def isAsciiLetter (c : Char) : Bool :=
  ('a' ≤ c && c ≤ 'z') || ('A' ≤ c && c ≤ 'Z')

/-- The regex class `[a-zA-Z0-9]`. -/
def isAlnumChar (c : Char) : Bool :=
  isAsciiLetter c || ('0' ≤ c && c ≤ '9')

/-- The regex class `[ -]`: a space or a hyphen. -/
def isSepChar (c : Char) : Bool :=
  c == ' ' || c == '-'

/-- Tail of the name regex of `name.py`,
`(?:[a-zA-Z0-9]|(?<![ -])[ -](?![ -])){1,}$`: each character is
alphanumeric, or a separator not adjacent to another separator; the flag
records whether the previous character was a separator.  Because the
pattern is anchored with `$` and not `re.fullmatch`, a single trailing
newline is also accepted. -/
def codeNameAux : List Char → Bool → Bool
  | [], _ => true
  | c :: cs, prevSep =>
    if c = '\n' && cs.isEmpty then true
    else if isAlnumChar c then codeNameAux cs false
    else if isSepChar c && !prevSep then codeNameAux cs true
    else false

/-- The whole name regex of `name.py`:
`^[a-zA-Z](?:[a-zA-Z0-9]|(?<![ -])[ -](?![ -])){1,}$` applied by
`re.match`.  The repetition demands at least one character after the
leading letter. -/
def codeNameMatch (l : List Char) : Bool :=
  match l with
  | c :: rest =>
    isAsciiLetter c && !rest.isEmpty && !(rest == ['\n']) && codeNameAux rest false
  | [] => false

/-- The `Name.value` setter of `name.py`, as a state transformer: the pair
is the `_value` cell after the call and the exception raised, if any. -/
def nameSet (st : Option String) (v : PyVal) : Option String × Option PyErr :=
  match v with
  | .other => (st, some .invalidName)
  | .str s =>
    if (trimChars s.toList).isEmpty then (st, some .emptyName)
    else if codeNameMatch s.toList then (some ⟨trimChars s.toList⟩, none)
    else (st, some .invalidName)

/-- Python `str.isdigit` on the character list of a string: nonempty and
all digits. -/
def pyIsDigitStr (l : List Char) : Bool :=
  !l.isEmpty && l.all Char.isDigit

/-- The `Phone.value` setter of `phone.py`: keep only digit characters,
then demand a nonempty all-digit result of exactly ten digits. -/
def phoneSet (st : Option String) (v : PyVal) : Option String × Option PyErr :=
  match v with
  | .other => (st, some .invalidPhone)
  | .str s =>
    let cleaned := s.toList.filter Char.isDigit
    if !pyIsDigitStr cleaned then (st, some .invalidPhone)
    else if cleaned.length != 10 then (st, some .invalidPhone)
    else (some ⟨cleaned⟩, none)

/-- The `Birthday.value` setter of `birthday.py`.  `now` is the calendar
date of `datetime.today()` at validation time; since the parsed value is a
midnight datetime, `parsed_date > datetime.today()` holds exactly when the
parsed calendar date is strictly after the current calendar date. -/
def birthdaySet (st : Option Date) (now : Date) (v : PyVal) :
    Option Date × Option PyErr :=
  match v with
  | .other => (st, some .invalidBirthday)
  | .str s =>
    match birthdayParse s with
    | none => (st, some .invalidBirthday)
    | some d => if dateLt now d then (st, some .invalidBirthday) else (some d, none)

/-- `Birthday.__str__`: render the stored date with
`strftime("%d.%m.%Y")`. -/
def birthdayStr (d : Date) : String := strftimeDMY d

/-- A contact `Record` of `record.py`: the stored name value, the stored
phone values in insertion order, and the optional birthday date. -/
structure PyRecord where
  name : String
  phones : List String
  birthday : Option Date
deriving DecidableEq

/-- `Record.find_phone`: the first stored phone whose value equals the
argument string. -/
def findPhone (phones : List String) (s : String) : Option String :=
  phones.find? (fun p => p == s)

/-- `Record.add_phone`: construct a `Phone` from the input (validating
it), then raise `DuplicatePhoneError` when `find_phone` locates the RAW
input string among the stored values, else append the normalized value. -/
def addPhone (r : PyRecord) (s : String) : PyRecord × Option PyErr :=
  match phoneSet none (.str s) with
  | (_, some e) => (r, some e)
  | (pst, none) =>
    match pst with
    | none => (r, some .invalidPhone)
    | some np =>
      if (findPhone r.phones s).isSome then (r, some .duplicatePhone)
      else ({ r with phones := r.phones ++ [np] }, none)

/-- One entry of the `get_upcoming_birthdays` result. -/
structure BdayEntry where
  name : String
  congratulation_date : String
deriving DecidableEq

/-- The body of the `get_upcoming_birthdays` loop for one record: anchor
the birthday to the current year (raising `ValueError` on an impossible
date), move to the next year when the anchor is before the current day,
then keep the record only when the day difference lies in 0..7, shifting a
weekend anchor by `(7 - weekday) + 1` days. -/
def upcomingEntry (today : Date) (r : PyRecord) : Except PyErr (Option BdayEntry) :=
  match r.birthday with
  | none => .ok none
  | some birthday =>
    match mkDate today.y birthday.m birthday.d with
    | none => .error .valueError
    | some bty =>
      match (if dateLt bty today then mkDate (today.y + 1) birthday.m birthday.d
             else some bty) with
      | none => .error .valueError
      | some bty2 =>
        let delta : Int := (toOrdinal bty2 : Int) - (toOrdinal today : Int)
        if 0 ≤ delta ∧ delta ≤ 7 then
          if 5 ≤ weekday bty2 then
            match dateAdd bty2 ((7 - weekday bty2) + 1) with
            | none => .error .overflowError
            | some cd => .ok (some ⟨r.name, strftimeDMY cd⟩)
          else .ok (some ⟨r.name, strftimeDMY bty2⟩)
        else .ok none

/-- `AddressBook.get_upcoming_birthdays` over the records in iteration
order; an exception raised while processing a record aborts the call. -/
def getUpcomingBirthdays (today : Date) : List PyRecord → Except PyErr (List BdayEntry)
  | [] => .ok []
  | r :: rs =>
    match upcomingEntry today r with
    | .error e => .error e
    | .ok oe =>
      match getUpcomingBirthdays today rs with
      | .error e => .error e
      | .ok rest =>
        .ok (match oe with
             | some x => x :: rest
             | none => rest)

/-- Key membership in the book, `record.name.value in self.data`. -/
def hasKey (book : List (String × PyRecord)) (k : String) : Bool :=
  book.any (fun kv => kv.1 == k)

/-- `AddressBook.add_record`: raise `DuplicateRecordException` when the
record name is already a key, else insert under the name value (a new dict
key is appended in insertion order). -/
def addRecord (book : List (String × PyRecord)) (r : PyRecord) :
    List (String × PyRecord) × Option PyErr :=
  if hasKey book r.name then (book, some .duplicateRecord)
  else (book ++ [(r.name, r)], none)

/-- Modelled from the spec: the pattern
`^[A-Za-z][A-Za-z0-9]*([ -][A-Za-z0-9]+)*$` that section 8 of the spec
claims every accepted name matches; the flag records whether the previous
character was a separator (which must be followed by an alphanumeric). -/
def specNameAux : List Char → Bool → Bool
  | [], needAl => !needAl
  | c :: cs, needAl =>
    if isAlnumChar c then specNameAux cs false
    else if isSepChar c && !needAl then specNameAux cs true
    else false

/-- Modelled from the spec: full match of
`^[A-Za-z][A-Za-z0-9]*([ -][A-Za-z0-9]+)*$`. -/
def specNameMatch (s : String) : Bool :=
  match s.toList with
  | c :: rest => isAsciiLetter c && specNameAux rest false
  | [] => false

/-- Modelled from the spec: a strict `DD.MM.YYYY` string, two-digit day,
two-digit month, four-digit year, dot-separated. -/
def specDDMMYYYY (s : String) : Bool :=
  match s.toList with
  | [d1, d2, s1, m1, m2, s2, y1, y2, y3, y4] =>
    d1.isDigit && d2.isDigit && s1 == '.' && m1.isDigit && m2.isDigit &&
      s2 == '.' && y1.isDigit && y2.isDigit && y3.isDigit && y4.isDigit
  | _ => false

/-! Helper lemmas. -/

theorem digitChar_isDigit : ∀ k < 10, (Nat.digitChar k).isDigit = true := by decide

theorem digitChar_toNat : ∀ k < 10, (Nat.digitChar k).toNat = 48 + k := by decide

theorem digitChar_ne_dot : ∀ k < 10, Nat.digitChar k ≠ '.' := by decide

theorem digitChar_not_ws : ∀ k < 10, isWS (Nat.digitChar k) = false := by decide

theorem formatNat2_all_digits (n : Nat) :
    (formatNat2 n).all Char.isDigit = true := by
  simp [formatNat2, List.all_cons,
    digitChar_isDigit _ (Nat.mod_lt _ (by omega)),
    digitChar_isDigit (n / 10 % 10) (Nat.mod_lt _ (by omega))]

theorem formatNat4_all_digits (n : Nat) :
    (formatNat4 n).all Char.isDigit = true := by
  simp [formatNat4, List.all_cons,
    digitChar_isDigit _ (Nat.mod_lt _ (by omega)),
    digitChar_isDigit (n / 1000 % 10) (Nat.mod_lt _ (by omega)),
    digitChar_isDigit (n / 100 % 10) (Nat.mod_lt _ (by omega)),
    digitChar_isDigit (n / 10 % 10) (Nat.mod_lt _ (by omega))]

theorem natOfDigits_formatNat2 (n : Nat) (h : n < 100) :
    natOfDigits (formatNat2 n) = n := by
  simp only [natOfDigits, formatNat2, List.foldl]
  rw [digitChar_toNat _ (Nat.mod_lt _ (by omega)),
    digitChar_toNat _ (Nat.mod_lt _ (by omega))]
  omega

theorem natOfDigits_formatNat4 (n : Nat) (h : n < 10000) :
    natOfDigits (formatNat4 n) = n := by
  simp only [natOfDigits, formatNat4, List.foldl]
  rw [digitChar_toNat _ (Nat.mod_lt _ (by omega)),
    digitChar_toNat _ (Nat.mod_lt _ (by omega)),
    digitChar_toNat _ (Nat.mod_lt _ (by omega)),
    digitChar_toNat _ (Nat.mod_lt _ (by omega))]
  omega

theorem formatNat2_no_dot (n : Nat) : ∀ c ∈ formatNat2 n, c ≠ '.' := by
  simp only [formatNat2, List.mem_cons, List.mem_singleton]
  rintro c (rfl | rfl | h)
  · exact digitChar_ne_dot _ (Nat.mod_lt _ (by omega))
  · exact digitChar_ne_dot _ (Nat.mod_lt _ (by omega))
  · cases h

theorem formatNat4_no_dot (n : Nat) : ∀ c ∈ formatNat4 n, c ≠ '.' := by
  simp only [formatNat4, List.mem_cons, List.mem_singleton]
  rintro c (rfl | rfl | rfl | rfl | h)
  · exact digitChar_ne_dot _ (Nat.mod_lt _ (by omega))
  · exact digitChar_ne_dot _ (Nat.mod_lt _ (by omega))
  · exact digitChar_ne_dot _ (Nat.mod_lt _ (by omega))
  · exact digitChar_ne_dot _ (Nat.mod_lt _ (by omega))
  · cases h

theorem formatNat2_no_ws (n : Nat) : ∀ c ∈ formatNat2 n, isWS c = false := by
  simp only [formatNat2, List.mem_cons, List.mem_singleton]
  rintro c (rfl | rfl | h)
  · exact digitChar_not_ws _ (Nat.mod_lt _ (by omega))
  · exact digitChar_not_ws _ (Nat.mod_lt _ (by omega))
  · cases h

theorem formatNat4_no_ws (n : Nat) : ∀ c ∈ formatNat4 n, isWS c = false := by
  simp only [formatNat4, List.mem_cons, List.mem_singleton]
  rintro c (rfl | rfl | rfl | rfl | h)
  · exact digitChar_not_ws _ (Nat.mod_lt _ (by omega))
  · exact digitChar_not_ws _ (Nat.mod_lt _ (by omega))
  · exact digitChar_not_ws _ (Nat.mod_lt _ (by omega))
  · exact digitChar_not_ws _ (Nat.mod_lt _ (by omega))
  · cases h

theorem splitDots_nodot (a : List Char) (h : ∀ c ∈ a, c ≠ '.') :
    splitDots a = [a] := by
  induction a with
  | nil => rfl
  | cons c cs ih =>
    have hc : c ≠ '.' := h c (List.mem_cons_self _ _)
    have := ih (fun x hx => h x (List.mem_cons_of_mem _ hx))
    simp [splitDots, hc, this]

theorem splitDots_append (a r : List Char) (h : ∀ c ∈ a, c ≠ '.') :
    splitDots (a ++ '.' :: r) = a :: splitDots r := by
  induction a with
  | nil => simp [splitDots]
  | cons c cs ih =>
    have hc : c ≠ '.' := h c (List.mem_cons_self _ _)
    have := ih (fun x hx => h x (List.mem_cons_of_mem _ hx))
    simp [splitDots, hc, this]

theorem dropWhile_eq_self_of_head (l : List Char)
    (h : ∀ c ∈ l, isWS c = false) : l.dropWhile isWS = l := by
  cases l with
  | nil => rfl
  | cons c cs => simp [List.dropWhile, h c (List.mem_cons_self _ _)]

theorem trimChars_eq_self (l : List Char) (h : ∀ c ∈ l, isWS c = false) :
    trimChars l = l := by
  unfold trimChars
  rw [dropWhile_eq_self_of_head l h,
    dropWhile_eq_self_of_head l.reverse (fun c hc => h c (List.mem_reverse.mp hc)),
    List.reverse_reverse]

theorem dropWhile_append_singleton_ne_nil (xs : List Char) (c : Char)
    (hc : isWS c = false) : (xs ++ [c]).dropWhile isWS ≠ [] := by
  induction xs with
  | nil => simp [List.dropWhile, hc]
  | cons x xt ih =>
    by_cases hx : isWS x
    · simpa [List.dropWhile, hx] using ih
    · simp [List.dropWhile, hx]

theorem trimChars_cons_ne_nil (c : Char) (cs : List Char)
    (hc : isWS c = false) : trimChars (c :: cs) ≠ [] := by
  unfold trimChars
  have h1 : (c :: cs).dropWhile isWS = c :: cs := by
    simp [List.dropWhile, hc]
  rw [h1, List.reverse_cons]
  intro h
  rw [List.reverse_eq_nil_iff] at h
  exact dropWhile_append_singleton_ne_nil cs.reverse c hc h

theorem daysInMonth_le_31 (y m : Nat) : daysInMonth y m ≤ 31 := by
  unfold daysInMonth
  split
  · split <;> omega
  · split <;> omega

theorem daysInMonth_pos (y m : Nat) : 1 ≤ daysInMonth y m := by
  unfold daysInMonth
  split
  · split <;> omega
  · split <;> omega

theorem strftime_toList (dt : Date) :
    (strftimeDMY dt).toList =
      formatNat2 dt.d ++ ('.' :: (formatNat2 dt.m ++ ('.' :: formatNat4 dt.y))) := rfl

theorem trim_strftime (dt : Date) :
    trimChars ((strftimeDMY dt).toList) = (strftimeDMY dt).toList := by
  rw [strftime_toList]
  apply trimChars_eq_self
  intro c hc
  simp only [List.mem_append, List.mem_cons] at hc
  rcases hc with h | rfl | h | rfl | h
  · exact formatNat2_no_ws dt.d c h
  · rfl
  · exact formatNat2_no_ws dt.m c h
  · rfl
  · exact formatNat4_no_ws dt.y c h

theorem dmy_strftime (dt : Date) (h : validDate dt) :
    dmyParse ((strftimeDMY dt).toList) = some (dt.d, dt.m, dt.y) := by
  obtain ⟨hy1, hy2, hm1, hm2, hd1, hd2⟩ := h
  have hd31 : dt.d ≤ 31 := le_trans hd2 (daysInMonth_le_31 dt.y dt.m)
  rw [strftime_toList]
  unfold dmyParse
  rw [splitDots_append _ _ (formatNat2_no_dot dt.d),
    splitDots_append _ _ (formatNat2_no_dot dt.m),
    splitDots_nodot _ (formatNat4_no_dot dt.y)]
  have hlen2d : (formatNat2 dt.d).length = 2 := rfl
  have hlen2m : (formatNat2 dt.m).length = 2 := rfl
  have hlen4 : (formatNat4 dt.y).length = 4 := rfl
  have hday : parseDay (formatNat2 dt.d) = some dt.d := by
    unfold parseDay
    rw [formatNat2_all_digits dt.d, hlen2d,
      natOfDigits_formatNat2 dt.d (by omega)]
    simp [hd1, hd31]
  have hmon : parseMonth (formatNat2 dt.m) = some dt.m := by
    unfold parseMonth
    rw [formatNat2_all_digits dt.m, hlen2m,
      natOfDigits_formatNat2 dt.m (by omega)]
    simp [hm1, hm2]
  have hyear : parseYear (formatNat4 dt.y) = some dt.y := by
    unfold parseYear
    rw [formatNat4_all_digits dt.y, hlen4,
      natOfDigits_formatNat4 dt.y (by omega)]
    simp
  show (match parseDay (formatNat2 dt.d), parseMonth (formatNat2 dt.m),
          parseYear (formatNat4 dt.y) with
        | some dd, some mm, some yy => some (dd, mm, yy)
        | _, _, _ => none) = some (dt.d, dt.m, dt.y)
  rw [hday, hmon, hyear]

theorem birthdayParse_strftime (dt : Date) (h : validDate dt) :
    birthdayParse (strftimeDMY dt) = some dt := by
  unfold birthdayParse
  rw [trim_strftime, dmy_strftime dt h]
  show mkDate dt.y dt.m dt.d = some dt
  unfold mkDate
  rw [if_pos h]

theorem dateLt_irrefl (dt : Date) : dateLt dt dt = false := by
  simp [dateLt]

theorem validDate_succDate (dt : Date) (h : validDate dt) (hy : dt.y ≤ 9998) :
    validDate (succDate dt) := by
  obtain ⟨hy1, hy2, hm1, hm2, hd1, hd2⟩ := h
  have p1 := daysInMonth_pos dt.y (dt.m + 1)
  have p2 := daysInMonth_pos (dt.y + 1) 1
  unfold succDate
  split
  · simp only [validDate]
    omega
  · split
    · simp only [validDate]
      omega
    · simp only [validDate]
      omega

theorem dateLt_succDate (dt : Date) : dateLt dt (succDate dt) = true := by
  unfold succDate
  split
  · simp [dateLt]
  · split <;> simp [dateLt]

theorem letter_not_ws (c : Char) (h : isAsciiLetter c = true) :
    isWS c = false := by
  have hne : ∀ w : Char, isAsciiLetter w = false → (c == w) = false := by
    intro w hw
    rw [beq_eq_false_iff_ne]
    rintro rfl
    rw [h] at hw
    cases hw
  unfold isWS
  rw [hne ' ' (by decide), hne '\t' (by decide), hne '\n' (by decide),
    hne '\r' (by decide), hne '\x0b' (by decide), hne '\x0c' (by decide)]
  rfl

theorem specNameAux_imp_codeNameAux :
    ∀ (l : List Char) (flag : Bool),
      specNameAux l flag = true → codeNameAux l flag = true := by
  intro l
  induction l with
  | nil => intro flag _; rfl
  | cons c cs ih =>
    intro flag h
    unfold specNameAux at h
    unfold codeNameAux
    by_cases hnl : (c = '\n' && cs.isEmpty) = true
    · simp [hnl]
    · simp only [hnl, if_false]
      by_cases hal : isAlnumChar c = true
      · simp only [hal, if_true] at h ⊢
        exact ih false h
      · simp only [hal, if_false] at h ⊢
        by_cases hsep : (isSepChar c && !flag) = true
        · simp only [hsep, if_true] at h ⊢
          exact ih true h
        · simp only [hsep, if_false] at h
          cases h

theorem specNameAux_ne_newline (flag : Bool)
    (h : specNameAux ['\n'] flag = true) : False := by
  simp [specNameAux, isAlnumChar, isAsciiLetter, isSepChar] at h

/-! Claim theorems. -/

/-- Claim C1: evaluation of the code at a Saturday anchor.  With the
current day Monday 2024-01-01 and a birthday anchoring to Saturday
2024-01-06 (weekday 5, five days ahead), the code emits the
congratulation date 09.01.2024, a Tuesday: the shift `(7 - weekday) + 1`
equals 3 for a Saturday and 2 for a Sunday, so the emitted date is NOT
the following Monday 08.01.2024 that the claim (and the function
docstring) demand. -/
theorem c1_weekend_shift_lands_on_tuesday :
    getUpcomingBirthdays ⟨2024, 1, 1⟩ [⟨"John", [], some ⟨1990, 1, 6⟩⟩] =
        .ok [⟨"John", "09.01.2024"⟩] ∧
      weekday ⟨2024, 1, 6⟩ = 5 ∧
      getUpcomingBirthdays ⟨2024, 1, 1⟩ [⟨"Ann", [], some ⟨1990, 1, 7⟩⟩] =
        .ok [⟨"Ann", "09.01.2024"⟩] ∧
      weekday ⟨2024, 1, 7⟩ = 6 ∧
      strftimeDMY ⟨2024, 1, 8⟩ = "08.01.2024" ∧
      weekday ⟨2024, 1, 8⟩ = 0 := by
  refine ⟨?_, rfl, ?_, rfl, ?_, rfl⟩ <;> rfl

/-- Claim C2: evaluation of `add_phone` at a formatted duplicate.  A
record already holding the phone value 1234567890 accepts the input
"123-456-7890": the duplicate check runs `find_phone` on the RAW input
string instead of the normalized value, so a second entry with the same
normalized value is appended and no `DuplicatePhoneError` is raised.
The same number in identical formatting is still rejected. -/
theorem c2_formatted_duplicate_slips_through :
    addPhone ⟨"John", ["1234567890"], none⟩ "123-456-7890" =
        (⟨"John", ["1234567890", "1234567890"], none⟩, none) ∧
      addPhone ⟨"John", ["1234567890"], none⟩ "1234567890" =
        (⟨"John", ["1234567890"], none⟩, some .duplicatePhone) := by
  exact ⟨rfl, rfl⟩

/-- Claim C3 counterexample: the single-letter string "A" matches the
regex `^[A-Za-z][A-Za-z0-9]*([ -][A-Za-z0-9]+)*$` quoted by the claim,
yet the `Name` setter rejects it with `InvalidNameError`, because the
regex in `name.py` requires at least one character after the leading
letter. -/
theorem c3_single_letter_rejected :
    specNameMatch "A" = true ∧
      nameSet none (.str "A") = (none, some .invalidName) := by
  exact ⟨rfl, rfl⟩

/-- Claim C7 counterexample: the string "1.1.1990" does not match the
strict `DD.MM.YYYY` shape (two-digit day and month), yet with the
current date 2024-01-01 the `Birthday` setter accepts it and stores
January 1, 1990, because `strptime` with `%d.%m.%Y` also accepts
single-digit day and month numerals. -/
theorem c7_single_digit_day_accepted :
    specDDMMYYYY "1.1.1990" = false ∧
      birthdaySet none ⟨2024, 1, 1⟩ (.str "1.1.1990") =
        (some ⟨1990, 1, 1⟩, none) := by
  exact ⟨rfl, rfl⟩

/-- Claim C5: for each of the three field setters, an assignment that
raises leaves the previously stored `_value` unchanged, because every
validation check precedes the write of `_value`. -/
theorem c5_failed_assignment_preserves_value :
    ∀ (stN stP : Option String) (stB : Option Date) (now : Date) (v : PyVal),
      ((nameSet stN v).2.isSome → (nameSet stN v).1 = stN) ∧
      ((phoneSet stP v).2.isSome → (phoneSet stP v).1 = stP) ∧
      ((birthdaySet stB now v).2.isSome → (birthdaySet stB now v).1 = stB) := by
  intro stN stP stB now v
  refine ⟨?_, ?_, ?_⟩
  · cases v with
    | other => intro _; rfl
    | str s =>
      simp only [nameSet]
      split
      · simp
      · split <;> simp
  · cases v with
    | other => intro _; rfl
    | str s =>
      simp only [phoneSet]
      split
      · simp
      · split <;> simp
  · cases v with
    | other => intro _; rfl
    | str s =>
      simp only [birthdaySet]
      split
      · simp
      · split <;> simp

/-- Claim C5 witness: concrete failed assignments leave a previously
valid value in place. -/
theorem c5_witness :
    (nameSet (some "Alice") (.str "!!")).1 = some "Alice" ∧
      (phoneSet (some "1234567890") (.str "12")).1 = some "1234567890" ∧
      (birthdaySet (some ⟨1990, 1, 1⟩) ⟨2024, 1, 1⟩ (.str "31.04.2023")).1 =
        some ⟨1990, 1, 1⟩ := by
  refine ⟨?_, ?_, ?_⟩
  · exact (c5_failed_assignment_preserves_value (some "Alice") none none
      ⟨2024, 1, 1⟩ (.str "!!")).1 (by decide)
  · exact (c5_failed_assignment_preserves_value none (some "1234567890") none
      ⟨2024, 1, 1⟩ (.str "12")).2.1 (by decide)
  · exact (c5_failed_assignment_preserves_value none none (some ⟨1990, 1, 1⟩)
      ⟨2024, 1, 1⟩ (.str "31.04.2023")).2.2 (by decide)

/-- Claim C8: for every input string, the `Phone` setter succeeds exactly
when filtering the string down to its digit characters leaves exactly ten
of them, in which case the stored value is that ten-digit string; any
other digit count (including zero) raises `InvalidPhoneError` and leaves
the state unchanged. -/
theorem c8_phone_ten_digit_characterization :
    ∀ (st : Option String) (s : String),
      ((s.toList.filter Char.isDigit).length = 10 →
        phoneSet st (.str s) = (some ⟨s.toList.filter Char.isDigit⟩, none)) ∧
      ((s.toList.filter Char.isDigit).length ≠ 10 →
        phoneSet st (.str s) = (st, some .invalidPhone)) := by
  intro st s
  constructor
  · intro h10
    have hne : (s.toList.filter Char.isDigit).isEmpty = false := by
      cases hl : s.toList.filter Char.isDigit with
      | nil => rw [hl] at h10; cases h10
      | cons a b => rfl
    have hall : (s.toList.filter Char.isDigit).all Char.isDigit = true := by
      rw [List.all_eq_true]
      intro c hc
      exact List.of_mem_filter hc
    have hdig : pyIsDigitStr (s.toList.filter Char.isDigit) = true := by
      unfold pyIsDigitStr
      rw [hne, hall]
      rfl
    simp only [phoneSet]
    rw [hdig]
    simp
    exact h10
  · intro hne10
    simp only [phoneSet]
    split
    · rfl
    · split
      · rfl
      · next hlen =>
        exfalso
        apply hne10
        simpa using hlen

/-- Claim C8 witness: a formatted ten-digit number is accepted and
normalized; an eleven-digit one is rejected. -/
theorem c8_witness :
    phoneSet none (.str "(123) 456-7890") = (some "1234567890", none) ∧
      phoneSet none (.str "12345678901") = (none, some .invalidPhone) := by
  constructor
  · exact (c8_phone_ten_digit_characterization none "(123) 456-7890").1 (by decide)
  · exact (c8_phone_ten_digit_characterization none "12345678901").2 (by decide)

/-- Claim C9: `add_record` with a name already present as a key raises
`DuplicateRecordException` and returns the book unchanged (the stored
record and the rest of the mapping are untouched); with the name absent
it inserts the record under the key `record.name.value` at the end of the
iteration order. -/
theorem c9_add_record_duplicate_check :
    ∀ (book : List (String × PyRecord)) (r : PyRecord),
      (hasKey book r.name = true →
        addRecord book r = (book, some .duplicateRecord)) ∧
      (hasKey book r.name = false →
        addRecord book r = (book ++ [(r.name, r)], none)) := by
  intro book r
  constructor
  · intro h
    unfold addRecord
    rw [if_pos h]
  · intro h
    unfold addRecord
    rw [if_neg (by rw [h]; intro hc; cases hc)]

/-- Claim C9 witness: adding a record under an existing name fails and
leaves the book intact; a fresh name is inserted. -/
theorem c9_witness :
    addRecord [("Alice", ⟨"Alice", ["1234567890"], none⟩)]
        ⟨"Alice", [], none⟩ =
      ([("Alice", ⟨"Alice", ["1234567890"], none⟩)], some .duplicateRecord) ∧
      addRecord [] (⟨"Bob", [], none⟩ : PyRecord) =
        ([("Bob", ⟨"Bob", [], none⟩)], none) := by
  constructor
  · exact (c9_add_record_duplicate_check
      [("Alice", ⟨"Alice", ["1234567890"], none⟩)] ⟨"Alice", [], none⟩).1
      (by decide)
  · exact (c9_add_record_duplicate_check [] ⟨"Bob", [], none⟩).2 (by decide)

/-- Claim C3 (amended): every string that matches
`^[A-Za-z][A-Za-z0-9]*([ -][A-Za-z0-9]+)*$` AND has at least two
characters is accepted by the `Name` setter, and the stored value is the
stripped input (single-character strings, although they match the quoted
regex, are rejected by the code). -/
theorem c3_spec_name_strings_accepted :
    ∀ (st : Option String) (s : String),
      specNameMatch s = true → 2 ≤ s.toList.length →
      nameSet st (.str s) = (some (pyStrip s), none) := by
  intro st s hs hlen
  cases hl : s.toList with
  | nil =>
    rw [hl] at hlen
    simp at hlen
  | cons c rest =>
    unfold specNameMatch at hs
    rw [hl] at hs
    have hs2 : (isAsciiLetter c && specNameAux rest false) = true := hs
    rw [Bool.and_eq_true] at hs2
    obtain ⟨hc, haux⟩ := hs2
    have hrest_ne : rest ≠ [] := by
      intro h
      rw [hl, h] at hlen
      simp at hlen
    have hnl : rest ≠ ['\n'] :=
      fun h => specNameAux_ne_newline false (h ▸ haux)
    have hcode : codeNameMatch s.toList = true := by
      rw [hl]
      unfold codeNameMatch
      simp [hc, hrest_ne, hnl, specNameAux_imp_codeNameAux rest false haux]
    have htrim : (trimChars s.toList).isEmpty = false := by
      rw [hl]
      have hne := trimChars_cons_ne_nil c rest (letter_not_ws c hc)
      cases htc : trimChars (c :: rest) with
      | nil => exact absurd htc hne
      | cons a b => rfl
    simp only [nameSet]
    rw [htrim, hcode]
    simp [pyStrip]

/-- Claim C3 witness: a multi-character string matching the spec regex is
accepted and stored stripped. -/
theorem c3_witness :
    nameSet none (.str "Jo Hn-2") = (some "Jo Hn-2", none) := by
  exact c3_spec_name_strings_accepted none "Jo Hn-2" (by decide) (by decide)

/-- Claim C4: a record whose stored birthday is February 29 makes
`get_upcoming_birthdays` raise (propagate `ValueError` from
`date.replace`) whenever the current year is not a leap year, for any
book containing that record: the function is not total over valid
collections. -/
theorem c4_feb29_nonleap_fails :
    ∀ (today : Date) (rs : List PyRecord) (r : PyRecord) (b : Date),
      r ∈ rs → r.birthday = some b → b.m = 2 → b.d = 29 →
      isLeap today.y = false →
      ∃ e, getUpcomingBirthdays today rs = .error e := by
  intro today rs r b hr hb hm hd hleap
  have hue : upcomingEntry today r = .error .valueError := by
    unfold upcomingEntry
    simp only [hb]
    have hmk : mkDate today.y b.m b.d = none := by
      unfold mkDate
      rw [if_neg]
      intro hv
      unfold validDate at hv
      dsimp only at hv
      obtain ⟨_, _, _, _, _, h6⟩ := hv
      have hdim : daysInMonth today.y b.m = 28 := by
        rw [hm]
        simp [daysInMonth, hleap]
      rw [hdim, hd] at h6
      omega
    rw [hmk]
  induction rs with
  | nil => cases hr
  | cons x tl ih =>
    rcases List.mem_cons.mp hr with rfl | hmem
    · refine ⟨.valueError, ?_⟩
      unfold getUpcomingBirthdays
      rw [hue]
    · cases he : upcomingEntry today x with
      | error e =>
        refine ⟨e, ?_⟩
        unfold getUpcomingBirthdays
        rw [he]
      | ok oe =>
        obtain ⟨e, htl⟩ := ih hmem
        refine ⟨e, ?_⟩
        unfold getUpcomingBirthdays
        rw [he, htl]

/-- Claim C4 witness: a leap-day birthday makes the call fail in the
non-leap year 2023. -/
theorem c4_witness :
    ∃ e, getUpcomingBirthdays ⟨2023, 3, 1⟩
      [⟨"Leo", [], some ⟨2020, 2, 29⟩⟩] = .error e := by
  exact c4_feb29_nonleap_fails ⟨2023, 3, 1⟩ [⟨"Leo", [], some ⟨2020, 2, 29⟩⟩]
    ⟨"Leo", [], some ⟨2020, 2, 29⟩⟩ ⟨2020, 2, 29⟩ (by decide) rfl rfl rfl
    (by decide)

/-- Claim C10: round-trip between construction and rendering.  For every
string whose stripped form is the zero-padded `DD.MM.YYYY` rendering of a
valid past-or-present date, the `Birthday` setter succeeds and stores
that date, `__str__` returns exactly the stripped input, and conversely
the `strftime` rendering of any stored date reparses to the same date. -/
theorem c10_birthday_roundtrip :
    ∀ (st : Option Date) (now d : Date) (s : String),
      validDate d → dateLt now d = false → pyStrip s = strftimeDMY d →
      birthdaySet st now (.str s) = (some d, none) ∧
        birthdayStr d = pyStrip s ∧
        birthdayParse (birthdayStr d) = some d := by
  intro st now d s hd hpast hs
  have hsl : trimChars s.toList = (strftimeDMY d).toList := by
    have h := congrArg String.toList hs
    simpa [pyStrip] using h
  have hparse : birthdayParse s = some d := by
    unfold birthdayParse
    rw [hsl, dmy_strftime d hd]
    show mkDate d.y d.m d.d = some d
    unfold mkDate
    rw [if_pos hd]
  refine ⟨?_, ?_, ?_⟩
  · simp only [birthdaySet]
    rw [hparse]
    show (if dateLt now d = true then (st, some PyErr.invalidBirthday)
          else (some d, none)) = (some d, none)
    rw [hpast]
    simp
  · show strftimeDMY d = pyStrip s
    rw [hs]
  · exact birthdayParse_strftime d hd

/-- Claim C10 witness: a padded rendering of 1990-01-06 round-trips. -/
theorem c10_witness :
    birthdaySet none ⟨2024, 1, 1⟩ (.str " 06.01.1990 ") =
      (some ⟨1990, 1, 6⟩, none) := by
  exact (c10_birthday_roundtrip none ⟨2024, 1, 1⟩ ⟨1990, 1, 6⟩ " 06.01.1990 "
    (by decide) (by decide) (by decide)).1

/-- Claim C7 (amended): the `Birthday` setter raises
`InvalidBirthdayError` exactly when the input is not a string, fails the
`strptime` `%d.%m.%Y` parse (day and month of one or two digits, year of
exactly four digits, dot-separated, surrounding whitespace ignored,
denoting a possible calendar date), or denotes a date strictly after the
current day; in particular the rendering of the current day succeeds and
the rendering of the next day fails. -/
theorem c7_birthday_validation_characterized :
    ∀ (now : Date) (st : Option Date),
      validDate now → now.y ≤ 9998 →
      (∀ s : String, (birthdaySet st now (.str s)).2 = none ↔
        ∃ d, birthdayParse s = some d ∧ dateLt now d = false) ∧
      (birthdaySet st now (.str (strftimeDMY now))).2 = none ∧
      (birthdaySet st now (.str (strftimeDMY (succDate now)))).2 =
        some .invalidBirthday ∧
      (birthdaySet st now .other).2 = some .invalidBirthday := by
  intro now st hv hy
  refine ⟨?_, ?_, ?_, rfl⟩
  · intro s
    simp only [birthdaySet]
    cases hp : birthdayParse s with
    | none => simp
    | some d =>
      by_cases hlt : dateLt now d = true
      · simp [hlt]
      · have hlt' : dateLt now d = false := by
          cases h : dateLt now d
          · rfl
          · exact absurd h hlt
        simp [hlt']
  · simp [birthdaySet, birthdayParse_strftime now hv, dateLt_irrefl]
  · have hvs : validDate (succDate now) := validDate_succDate now hv hy
    simp [birthdaySet, birthdayParse_strftime (succDate now) hvs,
      dateLt_succDate]

/-- Claim C7 witness: at the current date 2024-02-28 the rendering of the
current day is accepted and the rendering of the next day, the leap day
2024-02-29, is rejected as a future date. -/
theorem c7_witness :
    (birthdaySet none ⟨2024, 2, 28⟩
        (.str (strftimeDMY ⟨2024, 2, 28⟩))).2 = none ∧
      (birthdaySet none ⟨2024, 2, 28⟩
        (.str (strftimeDMY (succDate ⟨2024, 2, 28⟩)))).2 =
          some .invalidBirthday := by
  have h := c7_birthday_validation_characterized ⟨2024, 2, 28⟩ none
    (by decide) (by decide)
  exact ⟨h.2.1, h.2.2.1⟩

/-- Claim C6: with the anchoring steps of the algorithm succeeding (and
the current day far enough from the calendar limit that the weekend shift
cannot overflow), `get_upcoming_birthdays` emits an entry for a record
exactly when the day difference between the re-anchored candidate and the
current day lies between 0 and 7 inclusive: a birthday exactly on the
current day is included, and a candidate 8 or more days away is
excluded. -/
theorem c6_upcoming_window_iff :
    ∀ (today : Date) (r : PyRecord) (b bty c : Date),
      r.birthday = some b →
      mkDate today.y b.m b.d = some bty →
      (if dateLt bty today then mkDate (today.y + 1) b.m b.d
       else some bty) = some c →
      toOrdinal today + 10 ≤ maxOrdinal →
      ((∃ e, getUpcomingBirthdays today [r] = .ok [e]) ↔
        (0 ≤ (toOrdinal c : Int) - (toOrdinal today : Int) ∧
          (toOrdinal c : Int) - (toOrdinal today : Int) ≤ 7)) := by
  intro today r b bty c hb h1 h2 hov
  have hue : upcomingEntry today r =
      (if 0 ≤ (toOrdinal c : Int) - (toOrdinal today : Int) ∧
          (toOrdinal c : Int) - (toOrdinal today : Int) ≤ 7 then
        (if 5 ≤ weekday c then
          match dateAdd c ((7 - weekday c) + 1) with
          | none => .error .overflowError
          | some cd => .ok (some ⟨r.name, strftimeDMY cd⟩)
        else .ok (some ⟨r.name, strftimeDMY c⟩))
      else .ok none) := by
    unfold upcomingEntry
    simp only [hb, h1, h2]
  have hgub : getUpcomingBirthdays today [r] =
      (match upcomingEntry today r with
       | .error e => .error e
       | .ok (some x) => .ok [x]
       | .ok none => .ok []) := by
    unfold getUpcomingBirthdays
    cases upcomingEntry today r with
    | error e => rfl
    | ok oe => cases oe <;> rfl
  rw [hgub, hue]
  by_cases hw : (0 ≤ (toOrdinal c : Int) - (toOrdinal today : Int) ∧
      (toOrdinal c : Int) - (toOrdinal today : Int) ≤ 7)
  · rw [if_pos hw]
    by_cases hwk : 5 ≤ weekday c
    · rw [if_pos hwk]
      have hwk7 : weekday c < 7 := by
        unfold weekday
        exact Nat.mod_lt _ (by omega)
      have hbound : toOrdinal c + ((7 - weekday c) + 1) ≤ maxOrdinal := by
        obtain ⟨hw1, hw2⟩ := hw
        omega
      have hcd : dateAdd c ((7 - weekday c) + 1) =
          some (fromOrdinal (toOrdinal c + ((7 - weekday c) + 1))) := by
        unfold dateAdd
        rw [if_pos hbound]
      rw [hcd]
      exact ⟨fun _ => hw, fun _ => ⟨_, rfl⟩⟩
    · rw [if_neg hwk]
      exact ⟨fun _ => hw, fun _ => ⟨_, rfl⟩⟩
  · rw [if_neg hw]
    constructor
    · rintro ⟨e, he⟩
      simp at he
    · intro h
      exact absurd h hw

/-- Claim C6 witness: a birthday exactly on the current day (difference
0, a Wednesday) is included. -/
theorem c6_witness :
    ∃ e, getUpcomingBirthdays ⟨2024, 1, 10⟩
      [⟨"Tia", [], some ⟨1990, 1, 10⟩⟩] = .ok [e] := by
  exact (c6_upcoming_window_iff ⟨2024, 1, 10⟩ ⟨"Tia", [], some ⟨1990, 1, 10⟩⟩
    ⟨1990, 1, 10⟩ ⟨2024, 1, 10⟩ ⟨2024, 1, 10⟩ rfl (by decide) (by decide)
    (by decide)).mpr (by decide)

end AB
